import Mathlib

/-!
Verification of the IcoMaker icon-normalization pipeline (Icomaker.py).

The pipeline decodes a PNG, optionally keys the background color found at
pixel (0,0) to transparent, trims transparent margins, pads to a square
canvas, resizes to a fixed output size and saves the result.

Images are shallowly embedded as a mode tag plus a total pixel function
returning the RGBA interpretation of each pixel (channels are 8-bit values
0..255 in well-formed images; the embedding itself keeps them as `Nat`).
Pillow library primitives used by the code (convert, getbbox, paste with an
alpha mask, resize) are modelled from their documented and implemented
behaviour; everything else follows Icomaker.py line by line.
-/

/-- One RGBA pixel value.  For modes without an alpha channel the `a` field
carries the RGBA-converted interpretation (255 = opaque). -/
structure Pixel where
  r : Nat
  g : Nat
  b : Nat
  a : Nat
  deriving DecidableEq

/-- The PIL pixel modes that Icomaker.py distinguishes: `P` carries whether a
transparency table is present in `image.info`. -/
inductive Mode where
  | RGBA : Mode
  | LA : Mode
  | P : Bool → Mode
  | RGB : Mode
  | L : Mode
  deriving DecidableEq

/-- An in-memory raster image: mode, dimensions, and a total pixel map giving
each coordinate's RGBA interpretation (junk outside the geometry). -/
structure Img where
  mode : Mode
  width : Nat
  height : Nat
  pix : Nat → Nat → Pixel

/-- The condition of Icomaker.py line 33: the mode carries alpha information,
either directly (`RGBA`, `LA`) or via a palette transparency table. -/
def alphaCond : Mode → Bool
  | Mode.RGBA => true
  | Mode.LA => true
  | Mode.P t => t
  | _ => false

/-- Modelled from the spec: PIL's `Image.convert("RGBA")` — pixels of modes
that already carry alpha keep their RGBA interpretation; modes without alpha
(RGB, L, P without a transparency table) become fully opaque (alpha 255). -/
def Img.convertRGBA (img : Img) : Img :=
  { img with
    mode := Mode.RGBA
    pix := fun x y =>
      let c := img.pix x y
      if alphaCond img.mode then c else ⟨c.r, c.g, c.b, 255⟩ }

/-- Coordinates (x, y) of all pixels inside the geometry whose alpha is
nonzero, in row-major scan order. -/
def nonzeroPts (img : Img) : List (Nat × Nat) :=
  (List.range img.height).flatMap fun y =>
    (List.range img.width).filterMap fun x =>
      if 0 < (img.pix x y).a then some (x, y) else none

/-- Modelled from the spec: PIL's `getbbox` on the alpha band — the smallest
half-open rectangle (l, upper, r, lower) enclosing all nonzero-alpha pixels,
`none` when every pixel is transparent.  Computed from the scan list. -/
def getbbox (img : Img) : Option (Nat × Nat × Nat × Nat) :=
  match ((nonzeroPts img).map Prod.fst).min?, ((nonzeroPts img).map Prod.snd).min?,
      ((nonzeroPts img).map Prod.fst).max?, ((nonzeroPts img).map Prod.snd).max? with
  | some l, some t, some r, some b => some (l, t, r + 1, b + 1)
  | _, _, _, _ => none

/-- Icomaker.py `get_alpha_bbox` (lines 27-39): bounding box of alpha > 0 for
modes carrying alpha information, the full-extent box otherwise. -/
def get_alpha_bbox (image : Img) : Option (Nat × Nat × Nat × Nat) :=
  if alphaCond image.mode then getbbox image.convertRGBA
  else some (0, 0, image.width, image.height)

/-- Sum of absolute per-channel RGB differences (alpha excluded), as computed
at Icomaker.py line 75. -/
def colorDiff (c bg : Pixel) : Int :=
  |(c.r : Int) - (bg.r : Int)| + |(c.g : Int) - (bg.g : Int)| + |(c.b : Int) - (bg.b : Int)|

/-- The idiom `if img.mode != "RGBA": img = img.convert("RGBA")` shared by
`make_background_transparent` (lines 53-54) and `pad_to_square`
(lines 100-101). -/
def toRGBAIfNeeded (img : Img) : Img :=
  if img.mode = Mode.RGBA then img else img.convertRGBA

/-- Icomaker.py `make_background_transparent` (lines 42-82): convert to RGBA,
sample pixel (0,0); if it is already fully transparent return unchanged,
otherwise zero the alpha of every pixel within `tolerance * 3` total RGB
distance of the sample, preserving RGB values. -/
def make_background_transparent (img : Img) (tolerance : Int) : Img :=
  let img2 := toRGBAIfNeeded img
  let bg := img2.pix 0 0
  if bg.a = 0 then img2
  else
    { img2 with
      pix := fun x y =>
        let c := img2.pix x y
        if colorDiff c bg ≤ tolerance * 3 then ⟨c.r, c.g, c.b, 0⟩ else c }

/-- Modelled from the spec: PIL's `Image.crop` restricted to in-bounds boxes —
the (r - l) × (b - t) window of the image at offset (l, t), same mode. -/
def Img.crop (img : Img) (box : Nat × Nat × Nat × Nat) : Img :=
  { mode := img.mode
    width := box.2.2.1 - box.1
    height := box.2.2.2 - box.2.1
    pix := fun x y => img.pix (x + box.1) (y + box.2.1) }

/-- Icomaker.py `trim_image` (lines 85-92): crop to the alpha bounding box,
returning the input itself when the box is `None` or covers the whole
image. -/
def trim_image (img : Img) : Img :=
  match get_alpha_bbox img with
  | none => img
  | some bbox => if bbox = (0, 0, img.width, img.height) then img else img.crop bbox

/-- Pillow's fixed-point `MULDIV255` macro: `a * b / 255` with exact
rounding, as used by `paste` when blending through a mask. -/
def muldiv255 (a b : Nat) : Nat :=
  ((a * b + 128) / 256 + (a * b + 128)) / 256

/-- One channel of Pillow's paste-with-mask blend: destination weighted by
`255 - m`, source by `m`. -/
def blendChan (m d s : Nat) : Nat :=
  muldiv255 d (255 - m) + muldiv255 s m

/-- Modelled from the spec: compositing one source pixel over a destination
pixel in PIL's `paste(..., mask)` where the mask is the source image's own
alpha band — every channel, alpha included, is blended by the mask value. -/
def blendPix (d s : Pixel) : Pixel :=
  ⟨blendChan s.a d.r s.r, blendChan s.a d.g s.g, blendChan s.a d.b s.b, blendChan s.a d.a s.a⟩

/-- The centering offset of Icomaker.py line 105:
`((size - width) // 2, (size - height) // 2)` with `size = max width height`. -/
def padOffset (img : Img) : Nat × Nat :=
  ((max img.width img.height - img.width) / 2, (max img.width img.height - img.height) / 2)

/-- Icomaker.py `pad_to_square` (lines 95-107): a fresh square RGBA canvas of
side `max width height` filled with `background`, with the (RGBA-converted)
source pasted centered using its own alpha channel as the mask. -/
def pad_to_square (img : Img) (background : Pixel := ⟨0, 0, 0, 0⟩) : Img :=
  let size := max img.width img.height
  let img2 := toRGBAIfNeeded img
  { mode := Mode.RGBA
    width := size
    height := size
    pix := fun x y =>
      if (padOffset img).1 ≤ x ∧ x < (padOffset img).1 + img.width ∧
          (padOffset img).2 ≤ y ∧ y < (padOffset img).2 + img.height then
        blendPix background (img2.pix (x - (padOffset img).1) (y - (padOffset img).2))
      else background }

/-- Modelled from the spec: PIL's `Image.resize((size, size), LANCZOS)` — when
the target size equals the current size Pillow returns an unchanged copy;
otherwise the pixels are produced by Lanczos resampling, external
floating-point library code abstracted here as the `resample` parameter. -/
def pilResize (resample : Img → Nat → Img) (img : Img) (size : Nat) : Img :=
  if img.width = size ∧ img.height = size then img else resample img size

/-- Icomaker.py lines 114-116: after decoding, paletted images are normalized
to full RGBA so downstream steps treat alpha uniformly. -/
def decodeNormalize (img : Img) : Img :=
  match img.mode with
  | Mode.P _ => img.convertRGBA
  | _ => img

/-- The image handed to the trimming step inside `process_image`: the decoded,
RGBA-normalized image after the background color keyer (line 119). -/
def keyedStage (img : Img) (tolerance : Int) : Img :=
  make_background_transparent (decodeNormalize img) tolerance

/-- Icomaker.py `process_image` (lines 110-134), pixel-level core: normalize,
key the background, trim transparent margins, pad to a square, resize. -/
def process_image (resample : Img → Nat → Img) (img : Img) (size : Nat) (tolerance : Int) : Img :=
  pilResize resample (pad_to_square (trim_image (keyedStage img tolerance))) size

/-- Pixel-level equality of two images: same geometry and same pixel values
everywhere inside it. -/
def Img.eqv (A B : Img) : Prop :=
  A.width = B.width ∧ A.height = B.height ∧
    ∀ x < A.width, ∀ y < A.height, A.pix x y = B.pix x y

instance (A B : Img) : Decidable (A.eqv B) := by
  unfold Img.eqv
  infer_instance

/-- One candidate file of the source directory: its name, whether it is a
regular file, its extension, and the outcome of decoding it (`Except` models
the exceptions `process_image` can raise for a corrupt or unreadable file). -/
structure FileEntry where
  name : String
  isFile : Bool
  ext : String
  content : Except String Img

/-- The source directory: whether it exists, and its entries. -/
structure SrcDir where
  present : Bool
  entries : List FileEntry

/-- ASCII lowercasing of one character, as `str.lower()` acts on path
extensions. -/
def lowerChar (c : Char) : Char :=
  if 'A' ≤ c ∧ c ≤ 'Z' then Char.ofNat (c.toNat + 32) else c

/-- ASCII lowercasing of a string (Python's `str.lower()` restricted to the
ASCII extensions relevant here). -/
def lowerStr (s : String) : String := String.mk (s.data.map lowerChar)

/-- Icomaker.py `find_pngs` (lines 137-140): a missing folder yields no files;
otherwise the regular files with a case-insensitive `.png` extension. -/
def find_pngs (folder : SrcDir) : List FileEntry :=
  if folder.present then
    folder.entries.filter fun p => p.isFile && lowerStr p.ext == ".png"
  else []

/-- The observable outcome of one `main` run: the exit code, the successfully
written outputs, the reported per-file failures, and the skipped names. -/
structure BatchResult where
  exitCode : Nat
  outputs : List (String × Img)
  failures : List (String × String)
  skipped : List String

/-- The empty batch outcome with exit code 0. -/
def initResult : BatchResult := ⟨0, [], [], []⟩

/-- One iteration of the loop of Icomaker.py `main` (lines 167-177): skip when
the destination exists and overwrite was not requested, otherwise process the
file, recording either its output or — when decoding/processing fails — the
failing path together with the error, and continue. -/
def stepFile (resample : Img → Nat → Img) (size : Nat) (tolerance : Int)
    (existing : List String) (overwrite : Bool) (acc : BatchResult) (p : FileEntry) :
    BatchResult :=
  if p.name ∈ existing ∧ overwrite = false then
    { acc with skipped := acc.skipped ++ [p.name] }
  else
    match p.content with
    | Except.error e => { acc with failures := acc.failures ++ [(p.name, e)] }
    | Except.ok img =>
        { acc with outputs := acc.outputs ++ [(p.name, process_image resample img size tolerance)] }

/-- Icomaker.py `main` (lines 154-179): discover the PNGs, return exit code 0
immediately when there are none, otherwise fold the per-file loop over them
and return exit code 0. -/
def runMain (resample : Img → Nat → Img) (src : SrcDir) (existing : List String)
    (overwrite : Bool) (size : Nat) (tolerance : Int) : BatchResult :=
  let pngs := find_pngs src
  if pngs.isEmpty then initResult
  else pngs.foldl (stepFile resample size tolerance existing overwrite) initResult

/-- A 2×1 RGBA image whose second pixel is one unit of red away from the
top-left reference pixel. -/
def nearImg : Img :=
  ⟨Mode.RGBA, 2, 1, fun x _ => if x = 0 then ⟨10, 10, 10, 255⟩ else ⟨11, 10, 10, 255⟩⟩

/-- A 2×1 RGBA image with a black corner and a far-away red pixel. -/
def farImg : Img :=
  ⟨Mode.RGBA, 2, 1, fun x _ => if x = 0 then ⟨0, 0, 0, 255⟩ else ⟨200, 0, 0, 255⟩⟩

/-- A 1×1 LA image whose only pixel is fully transparent. -/
def transLAImg : Img := ⟨Mode.LA, 1, 1, fun _ _ => ⟨7, 7, 7, 0⟩⟩

/-- A 1×1 fully transparent RGBA image. -/
def transImg : Img := ⟨Mode.RGBA, 1, 1, fun _ _ => ⟨5, 6, 7, 0⟩⟩

/-- A 1×1 fully opaque RGBA image. -/
def opaqueImg : Img := ⟨Mode.RGBA, 1, 1, fun _ _ => ⟨1, 2, 3, 255⟩⟩

/-- A 2×1 RGBA image that is transparent at (0,0) and opaque at (1,0). -/
def halfImg : Img :=
  ⟨Mode.RGBA, 2, 1, fun x _ => if x = 0 then ⟨9, 9, 9, 0⟩ else ⟨1, 2, 3, 255⟩⟩

/-- A 1×2 RGBA image with an opaque and a semi-transparent pixel. -/
def tallImg : Img :=
  ⟨Mode.RGBA, 1, 2, fun _ y => if y = 0 then ⟨1, 2, 3, 255⟩ else ⟨4, 5, 6, 128⟩⟩

/-- A solid opaque 4×6 RGBA image. -/
def tall46Img : Img := ⟨Mode.RGBA, 4, 6, fun _ _ => ⟨8, 8, 8, 255⟩⟩

/-- A 2×2 paletted image with a transparency table whose only visible pixel is
at (1,1). -/
def paletteImg : Img :=
  ⟨Mode.P true, 2, 2, fun x y => if x = 1 ∧ y = 1 then ⟨3, 4, 5, 200⟩ else ⟨3, 4, 5, 0⟩⟩

/-- A 3×2 RGB image (no alpha channel). -/
def rgbImg : Img := ⟨Mode.RGB, 3, 2, fun _ _ => ⟨70, 80, 90, 255⟩⟩

/-- A 1×1 solid white opaque RGBA image. -/
def whiteImg : Img := ⟨Mode.RGBA, 1, 1, fun _ _ => ⟨255, 255, 255, 255⟩⟩

/-- A 2×1 RGBA image with a transparent corner and an opaque second pixel. -/
def cornerClearImg : Img :=
  ⟨Mode.RGBA, 2, 1, fun x _ => if x = 0 then ⟨1, 1, 1, 0⟩ else ⟨2, 2, 2, 255⟩⟩

/-- A resampler that hands its input back; exercised only at instances where
`pilResize` takes the equal-size fast path and never consults it. -/
def holdResample : Img → Nat → Img := fun i _ => i

/-- A 2×1 RGBA image: opaque red at (0,0), opaque blue at (1,0). -/
def redBlueImg : Img :=
  ⟨Mode.RGBA, 2, 1, fun x _ => if x = 0 then ⟨255, 0, 0, 255⟩ else ⟨0, 0, 255, 255⟩⟩

/-- A 1×1 RGBA image whose only pixel is fully transparent black. -/
def blankImg : Img := ⟨Mode.RGBA, 1, 1, fun _ _ => ⟨0, 0, 0, 0⟩⟩

/-- A 2×1 RGBA image with a fully transparent left margin pixel. -/
def marginImg : Img :=
  ⟨Mode.RGBA, 2, 1, fun x _ => if x = 0 then ⟨0, 0, 0, 0⟩ else ⟨10, 20, 30, 255⟩⟩

/-- A resampler producing a blank canvas of the requested square size (a
stand-in satisfying the size contract of Lanczos resampling). -/
def squareResample : Img → Nat → Img :=
  fun _ n => ⟨Mode.RGBA, n, n, fun _ _ => ⟨0, 0, 0, 0⟩⟩

/-- A second size-correct resampler, for exercising the batch driver. -/
def batchResample : Img → Nat → Img :=
  fun _ n => ⟨Mode.RGBA, n, n, fun _ _ => ⟨0, 0, 0, 0⟩⟩

/-- A decodable 1×1 image for the batch driver examples. -/
def goodImgA : Img := ⟨Mode.RGBA, 1, 1, fun _ _ => ⟨1, 1, 1, 255⟩⟩

/-- Another decodable 1×1 image for the batch driver examples. -/
def goodImgC : Img := ⟨Mode.RGBA, 1, 1, fun _ _ => ⟨2, 2, 2, 255⟩⟩

/-- A first well-formed PNG entry. -/
def fileA : FileEntry := ⟨"a.png", true, ".png", Except.ok goodImgA⟩

/-- A PNG entry whose decoding fails (corrupt file). -/
def fileB : FileEntry := ⟨"b.png", true, ".PNG", Except.error "cannot identify image file"⟩

/-- A second well-formed PNG entry, listed after the corrupt one. -/
def fileC : FileEntry := ⟨"c.png", true, ".png", Except.ok goodImgC⟩

/-- A source directory holding a good, a corrupt, and another good PNG. -/
def srcDir3 : SrcDir := ⟨true, [fileA, fileB, fileC]⟩

/-- The failure report `main`'s loop produces for one file, if any: skipped
files and successfully processed files report nothing. -/
def failSel (existing : List String) (overwrite : Bool) (p : FileEntry) :
    Option (String × String) :=
  if p.name ∈ existing ∧ overwrite = false then none
  else
    match p.content with
    | Except.error e => some (p.name, e)
    | Except.ok _ => none

/-- The output `main`'s loop writes for one file, if any: skipped files and
files that fail to decode produce nothing. -/
def outSel (resample : Img → Nat → Img) (size : Nat) (tolerance : Int)
    (existing : List String) (overwrite : Bool) (p : FileEntry) : Option (String × Img) :=
  if p.name ∈ existing ∧ overwrite = false then none
  else
    match p.content with
    | Except.error _ => none
    | Except.ok img => some (p.name, process_image resample img size tolerance)

/- ===== theorems below this line ===== -/

theorem toRGBA_eq_self (img : Img) (h : img.mode = Mode.RGBA) : toRGBAIfNeeded img = img := by
  unfold toRGBAIfNeeded
  exact if_pos h

theorem toRGBA_width (img : Img) : (toRGBAIfNeeded img).width = img.width := by
  unfold toRGBAIfNeeded
  split <;> rfl

theorem toRGBA_height (img : Img) : (toRGBAIfNeeded img).height = img.height := by
  unfold toRGBAIfNeeded
  split <;> rfl

theorem convertRGBA_pix_of_alphaCond (img : Img) (h : alphaCond img.mode = true) :
    img.convertRGBA.pix = img.pix := by
  funext x y
  simp [Img.convertRGBA, h]

theorem toRGBA_pix_of_alphaCond (img : Img) (h : alphaCond img.mode = true) :
    (toRGBAIfNeeded img).pix = img.pix := by
  unfold toRGBAIfNeeded
  split
  · rfl
  · exact convertRGBA_pix_of_alphaCond img h

/-- **C2.** For every RGBA image whose pixel (0,0) is not fully transparent and
every tolerance t ≥ 0, the Background Color Keyer uses the color of pixel
(0,0) as reference and, for every pixel whose sum of absolute RGB differences
from the reference is at most `t * 3`, sets that pixel's alpha to 0 while
preserving its RGB values. -/
theorem make_background_transparent_keys_within_tolerance (img : Img) (t : Int)
    (himg : img.mode = Mode.RGBA) (hw : 0 < img.width) (hh : 0 < img.height)
    (h0 : (img.pix 0 0).a ≠ 0) (ht : 0 ≤ t) (x y : Nat)
    (hx : x < img.width) (hy : y < img.height)
    (hd : colorDiff (img.pix x y) (img.pix 0 0) ≤ t * 3) :
    (make_background_transparent img t).pix x y
      = ⟨(img.pix x y).r, (img.pix x y).g, (img.pix x y).b, 0⟩ := by
  simp [make_background_transparent, toRGBA_eq_self img himg, h0, hd]

theorem make_background_transparent_keys_witness :
    (make_background_transparent nearImg 1).pix 1 0 = ⟨11, 10, 10, 0⟩ :=
  make_background_transparent_keys_within_tolerance nearImg 1 rfl (by decide) (by decide)
    (by decide) (by decide) 1 0 (by decide) (by decide) (by decide)

/-- **C10.** The Background Color Keyer never changes the image's dimensions
and never changes any pixel's RGB channels: each pixel's alpha is either left
unchanged or set to 0, and pixels whose RGB distance from the reference
exceeds `tolerance * 3` are completely untouched. -/
theorem make_background_transparent_frame (img : Img) (t : Int)
    (himg : img.mode = Mode.RGBA) :
    (make_background_transparent img t).width = img.width ∧
    (make_background_transparent img t).height = img.height ∧
    ∀ x y,
      ((make_background_transparent img t).pix x y).r = (img.pix x y).r ∧
      ((make_background_transparent img t).pix x y).g = (img.pix x y).g ∧
      ((make_background_transparent img t).pix x y).b = (img.pix x y).b ∧
      (((make_background_transparent img t).pix x y).a = (img.pix x y).a ∨
        ((make_background_transparent img t).pix x y).a = 0) ∧
      (¬ colorDiff (img.pix x y) (img.pix 0 0) ≤ t * 3 →
        (make_background_transparent img t).pix x y = img.pix x y) := by
  simp only [make_background_transparent, toRGBA_eq_self img himg]
  by_cases h0 : (img.pix 0 0).a = 0
  · simp [h0]
  · refine ⟨by simp [h0], by simp [h0], fun x y => ?_⟩
    by_cases hd : colorDiff (img.pix x y) (img.pix 0 0) ≤ t * 3
    · simp [h0, hd]
    · simp [h0, hd]

theorem make_background_transparent_frame_witness :
    (make_background_transparent farImg 0).pix 1 0 = farImg.pix 1 0 :=
  ((make_background_transparent_frame farImg 0 rfl).2.2 1 0).2.2.2.2 (by decide)

theorem mbt_corner_noop (img : Img) (t : Int)
    (hA : alphaCond img.mode = true) (h0 : (img.pix 0 0).a = 0) :
    (make_background_transparent img t).width = img.width ∧
    (make_background_transparent img t).height = img.height ∧
    ∀ x y, (make_background_transparent img t).pix x y = img.pix x y := by
  have h1 : make_background_transparent img t = toRGBAIfNeeded img := by
    simp [make_background_transparent, toRGBA_pix_of_alphaCond img hA, h0]
  rw [h1]
  exact ⟨toRGBA_width img, toRGBA_height img, fun x y =>
    congrFun (congrFun (toRGBA_pix_of_alphaCond img hA) x) y⟩

theorem mbt_pix_of_opaque_corner (img : Img) (t : Int) (himg : img.mode = Mode.RGBA)
    (h0 : (img.pix 0 0).a ≠ 0) (x y : Nat) :
    (make_background_transparent img t).pix x y =
      if colorDiff (img.pix x y) (img.pix 0 0) ≤ t * 3 then
        ⟨(img.pix x y).r, (img.pix x y).g, (img.pix x y).b, 0⟩
      else img.pix x y := by
  simp only [make_background_transparent, toRGBA_eq_self img himg]
  rw [if_neg h0]

/-- **C8.** For every image that carries alpha information and whose pixel
(0,0) has alpha 0, the Background Color Keyer does nothing: the result has the
same dimensions and every pixel value is unchanged, for every tolerance. -/
theorem make_background_transparent_transparent_corner (img : Img) (t : Int)
    (hA : alphaCond img.mode = true) (h0 : (img.pix 0 0).a = 0) :
    (make_background_transparent img t).width = img.width ∧
    (make_background_transparent img t).height = img.height ∧
    ∀ x y, (make_background_transparent img t).pix x y = img.pix x y :=
  mbt_corner_noop img t hA h0

theorem make_background_transparent_transparent_corner_witness :
    (make_background_transparent transLAImg 5).pix 0 0 = transLAImg.pix 0 0 ∧
    (make_background_transparent transLAImg 5).width = transLAImg.width :=
  ⟨(make_background_transparent_transparent_corner transLAImg 5 rfl rfl).2.2 0 0,
    (make_background_transparent_transparent_corner transLAImg 5 rfl rfl).1⟩

/-- **C7.** `trim_image` is the identity in the no-op cases: when the computed
alpha bounding box is `none` (fully transparent image) or equals the full
image extent it returns the input itself; only when the box is a proper
subregion does it return the crop to that box. -/
theorem trim_image_noop_spec (img : Img) :
    (get_alpha_bbox img = none → trim_image img = img) ∧
    (get_alpha_bbox img = some (0, 0, img.width, img.height) → trim_image img = img) ∧
    (∀ box, get_alpha_bbox img = some box → box ≠ (0, 0, img.width, img.height) →
      trim_image img = img.crop box) := by
  refine ⟨fun h => ?_, fun h => ?_, fun box h hne => ?_⟩
  · simp [trim_image, h]
  · simp [trim_image, h]
  · simp [trim_image, h, hne]

theorem trim_image_noop_spec_witness :
    trim_image transImg = transImg ∧ trim_image opaqueImg = opaqueImg ∧
    trim_image halfImg = halfImg.crop (1, 0, 2, 1) :=
  ⟨(trim_image_noop_spec transImg).1 (by decide),
    (trim_image_noop_spec opaqueImg).2.1 (by decide),
    (trim_image_noop_spec halfImg).2.2 (1, 0, 2, 1) (by decide) (by decide)⟩

theorem muldiv255_zero_left (b : Nat) : muldiv255 0 b = 0 := by
  simp [muldiv255]

theorem muldiv255_zero_right (a : Nat) : muldiv255 a 0 = 0 := by
  simp [muldiv255]

set_option maxRecDepth 4096 in
theorem muldiv255_full : ∀ c < 256, muldiv255 c 255 = c := by
  decide

theorem blendPix_transparent_source (d s : Pixel) (hd : d = ⟨0, 0, 0, 0⟩) (hs : s.a = 0) :
    blendPix d s = ⟨0, 0, 0, 0⟩ := by
  subst hd
  simp [blendPix, blendChan, hs, muldiv255_zero_left, muldiv255_zero_right]

theorem blendPix_opaque_source (d s : Pixel) (ha : s.a = 255)
    (hr : s.r < 256) (hg : s.g < 256) (hb : s.b < 256) :
    blendPix d s = s := by
  obtain ⟨r, g, b, a⟩ := s
  simp only at ha hr hg hb
  subst ha
  simp [blendPix, blendChan, muldiv255_zero_right, muldiv255_full r hr,
    muldiv255_full g hg, muldiv255_full b hb, muldiv255_full 255 (by omega)]

theorem pad_pix (img : Img) (bg : Pixel) (x y : Nat) :
    (pad_to_square img bg).pix x y =
      if (padOffset img).1 ≤ x ∧ x < (padOffset img).1 + img.width ∧
          (padOffset img).2 ≤ y ∧ y < (padOffset img).2 + img.height then
        blendPix bg ((toRGBAIfNeeded img).pix (x - (padOffset img).1) (y - (padOffset img).2))
      else bg := rfl

/-- **C5.** `pad_to_square` yields a square canvas of side `max width height`
with the source pasted at offset `((side - width) / 2, (side - height) / 2)`
(floor division), the surrounding area fully transparent, and the source
composited through its own alpha mask (fully transparent source pixels stay
fully transparent, fully opaque ones are copied); a 4×6 image lands at
offset (1, 0). -/
theorem pad_to_square_spec (img : Img) :
    (pad_to_square img).width = max img.width img.height ∧
    (pad_to_square img).height = max img.width img.height ∧
    (∀ i j, i < img.width → j < img.height →
      (pad_to_square img).pix ((padOffset img).1 + i) ((padOffset img).2 + j)
        = blendPix ⟨0, 0, 0, 0⟩ ((toRGBAIfNeeded img).pix i j)) ∧
    (∀ x y, ¬((padOffset img).1 ≤ x ∧ x < (padOffset img).1 + img.width ∧
        (padOffset img).2 ≤ y ∧ y < (padOffset img).2 + img.height) →
      (pad_to_square img).pix x y = ⟨0, 0, 0, 0⟩) ∧
    (∀ i j, i < img.width → j < img.height → ((toRGBAIfNeeded img).pix i j).a = 0 →
      (pad_to_square img).pix ((padOffset img).1 + i) ((padOffset img).2 + j) = ⟨0, 0, 0, 0⟩) ∧
    (∀ i j, i < img.width → j < img.height → ((toRGBAIfNeeded img).pix i j).a = 255 →
      ((toRGBAIfNeeded img).pix i j).r < 256 → ((toRGBAIfNeeded img).pix i j).g < 256 →
      ((toRGBAIfNeeded img).pix i j).b < 256 →
      (pad_to_square img).pix ((padOffset img).1 + i) ((padOffset img).2 + j)
        = (toRGBAIfNeeded img).pix i j) ∧
    (img.width = 4 → img.height = 6 → padOffset img = (1, 0)) := by
  have hin : ∀ i j, i < img.width → j < img.height →
      (pad_to_square img).pix ((padOffset img).1 + i) ((padOffset img).2 + j)
        = blendPix ⟨0, 0, 0, 0⟩ ((toRGBAIfNeeded img).pix i j) := by
    intro i j hi hj
    rw [pad_pix, if_pos (by omega)]
    have e1 : (padOffset img).1 + i - (padOffset img).1 = i := by omega
    have e2 : (padOffset img).2 + j - (padOffset img).2 = j := by omega
    rw [e1, e2]
  refine ⟨rfl, rfl, hin, ?_, ?_, ?_⟩
  · intro x y hxy
    rw [pad_pix, if_neg hxy]
  · intro i j hi hj ha
    rw [hin i j hi hj]
    exact blendPix_transparent_source _ _ rfl ha
  · refine ⟨fun i j hi hj ha hr hg hb => ?_, fun hw hh => ?_⟩
    · rw [hin i j hi hj]
      exact blendPix_opaque_source _ _ ha hr hg hb
    · unfold padOffset
      rw [hw, hh]
      decide

theorem pad_to_square_spec_witness :
    (pad_to_square tallImg).pix ((padOffset tallImg).1 + 0) ((padOffset tallImg).2 + 0)
      = blendPix ⟨0, 0, 0, 0⟩ ((toRGBAIfNeeded tallImg).pix 0 0) ∧
    (pad_to_square tallImg).pix 1 0 = ⟨0, 0, 0, 0⟩ ∧
    padOffset tall46Img = (1, 0) :=
  ⟨(pad_to_square_spec tallImg).2.2.1 0 0 (by decide) (by decide),
    (pad_to_square_spec tallImg).2.2.2.1 1 0 (by decide),
    (pad_to_square_spec tall46Img).2.2.2.2.2.2 rfl rfl⟩

theorem mem_nonzeroPts (img : Img) (x y : Nat) :
    (x, y) ∈ nonzeroPts img ↔ x < img.width ∧ y < img.height ∧ 0 < (img.pix x y).a := by
  constructor
  · intro h
    simp only [nonzeroPts, List.mem_flatMap, List.mem_range, List.mem_filterMap] at h
    obtain ⟨y', hy', x', hx', hif⟩ := h
    by_cases hp : 0 < (img.pix x' y').a
    · rw [if_pos hp] at hif
      obtain ⟨rfl, rfl⟩ : x' = x ∧ y' = y := by
        simpa using hif
      exact ⟨hx', hy', hp⟩
    · rw [if_neg hp] at hif
      cases hif
  · rintro ⟨hx, hy, ha⟩
    simp only [nonzeroPts, List.mem_flatMap, List.mem_range, List.mem_filterMap]
    exact ⟨y, hy, x, hx, by rw [if_pos ha]⟩

theorem nonzeroPts_mem_fst (img : Img) (x : Nat) :
    x ∈ (nonzeroPts img).map Prod.fst ↔
      ∃ y, x < img.width ∧ y < img.height ∧ 0 < (img.pix x y).a := by
  simp only [List.mem_map]
  constructor
  · rintro ⟨⟨a, b⟩, hmem, rfl⟩
    rw [mem_nonzeroPts] at hmem
    exact ⟨b, hmem⟩
  · rintro ⟨y, hx, hy, ha⟩
    exact ⟨(x, y), (mem_nonzeroPts img x y).2 ⟨hx, hy, ha⟩, rfl⟩

theorem nonzeroPts_mem_snd (img : Img) (y : Nat) :
    y ∈ (nonzeroPts img).map Prod.snd ↔
      ∃ x, x < img.width ∧ y < img.height ∧ 0 < (img.pix x y).a := by
  simp only [List.mem_map]
  constructor
  · rintro ⟨⟨a, b⟩, hmem, rfl⟩
    rw [mem_nonzeroPts] at hmem
    exact ⟨a, hmem⟩
  · rintro ⟨x, hx, hy, ha⟩
    exact ⟨(x, y), (mem_nonzeroPts img x y).2 ⟨hx, hy, ha⟩, rfl⟩

theorem getbbox_none_iff (img : Img) :
    getbbox img = none ↔ ∀ x < img.width, ∀ y < img.height, (img.pix x y).a = 0 := by
  constructor
  · intro h x hx y hy
    by_contra ha
    have hmem : (x, y) ∈ nonzeroPts img :=
      (mem_nonzeroPts img x y).2 ⟨hx, hy, Nat.pos_of_ne_zero ha⟩
    obtain ⟨lv, hlv⟩ := Option.isSome_iff_exists.mp
      (List.isSome_min?_of_mem (List.mem_map_of_mem Prod.fst hmem))
    obtain ⟨tv, htv⟩ := Option.isSome_iff_exists.mp
      (List.isSome_min?_of_mem (List.mem_map_of_mem Prod.snd hmem))
    obtain ⟨rv, hrv⟩ := Option.isSome_iff_exists.mp
      (List.isSome_max?_of_mem (List.mem_map_of_mem Prod.fst hmem))
    obtain ⟨bv, hbv⟩ := Option.isSome_iff_exists.mp
      (List.isSome_max?_of_mem (List.mem_map_of_mem Prod.snd hmem))
    unfold getbbox at h
    rw [hlv, htv, hrv, hbv] at h
    cases h
  · intro hall
    have hnil : nonzeroPts img = [] := by
      rw [List.eq_nil_iff_forall_not_mem]
      rintro ⟨x, y⟩ hmem
      rw [mem_nonzeroPts] at hmem
      exact absurd (hall x hmem.1 y hmem.2.1) (Nat.pos_iff_ne_zero.mp hmem.2.2)
    unfold getbbox
    rw [hnil]
    rfl

theorem getbbox_some_spec (img : Img) (l t r b : Nat) (h : getbbox img = some (l, t, r, b)) :
    (∀ x y, x < img.width → y < img.height → 0 < (img.pix x y).a →
      l ≤ x ∧ x < r ∧ t ≤ y ∧ y < b) ∧
    (∀ l2 t2 r2 b2,
      (∀ x y, x < img.width → y < img.height → 0 < (img.pix x y).a →
        l2 ≤ x ∧ x < r2 ∧ t2 ≤ y ∧ y < b2) →
      l2 ≤ l ∧ t2 ≤ t ∧ r ≤ r2 ∧ b ≤ b2) := by
  rcases hp : nonzeroPts img with _ | ⟨p, ps⟩
  · unfold getbbox at h
    rw [hp] at h
    cases h
  · have hm : ∀ f : Nat × Nat → Nat, f p ∈ ((p :: ps).map f) :=
      fun f => List.mem_map_of_mem f (List.mem_cons_self p ps)
    obtain ⟨lv, hlv⟩ := Option.isSome_iff_exists.mp (List.isSome_min?_of_mem (hm Prod.fst))
    obtain ⟨tv, htv⟩ := Option.isSome_iff_exists.mp (List.isSome_min?_of_mem (hm Prod.snd))
    obtain ⟨rv, hrv⟩ := Option.isSome_iff_exists.mp (List.isSome_max?_of_mem (hm Prod.fst))
    obtain ⟨bv, hbv⟩ := Option.isSome_iff_exists.mp (List.isSome_max?_of_mem (hm Prod.snd))
    unfold getbbox at h
    rw [hp, hlv, htv, hrv, hbv] at h
    simp only [Option.some.injEq, Prod.mk.injEq] at h
    obtain ⟨rfl, rfl, rfl, rfl⟩ := h
    rw [← hp] at hlv htv hrv hbv
    rw [List.min?_eq_some_iff'] at hlv htv
    rw [List.max?_eq_some_iff'] at hrv hbv
    obtain ⟨hlmem, hlle⟩ := hlv
    obtain ⟨htmem, htle⟩ := htv
    obtain ⟨hrmem, hrge⟩ := hrv
    obtain ⟨hbmem, hbge⟩ := hbv
    constructor
    · intro x y hx hy ha
      have hmem : (x, y) ∈ nonzeroPts img := (mem_nonzeroPts img x y).2 ⟨hx, hy, ha⟩
      have h1 := hlle x (List.mem_map_of_mem Prod.fst hmem)
      have h2 := hrge x (List.mem_map_of_mem Prod.fst hmem)
      have h3 := htle y (List.mem_map_of_mem Prod.snd hmem)
      have h4 := hbge y (List.mem_map_of_mem Prod.snd hmem)
      exact ⟨h1, by omega, h3, by omega⟩
    · intro l2 t2 r2 b2 hcover
      obtain ⟨yl, hl1, hl2, hl3⟩ := (nonzeroPts_mem_fst img lv).1 hlmem
      obtain ⟨xt, ht1, ht2, ht3⟩ := (nonzeroPts_mem_snd img tv).1 htmem
      obtain ⟨yr, hr1, hr2, hr3⟩ := (nonzeroPts_mem_fst img rv).1 hrmem
      obtain ⟨xb, hb1, hb2, hb3⟩ := (nonzeroPts_mem_snd img bv).1 hbmem
      have c1 := hcover lv yl hl1 hl2 hl3
      have c2 := hcover xt tv ht1 ht2 ht3
      have c3 := hcover rv yr hr1 hr2 hr3
      have c4 := hcover xb bv hb1 hb2 hb3
      exact ⟨c1.1, c2.2.2.1, by omega, by omega⟩

theorem convertRGBA_width (img : Img) : img.convertRGBA.width = img.width := rfl

theorem convertRGBA_height (img : Img) : img.convertRGBA.height = img.height := rfl

/-- **C3.** `get_alpha_bbox`: for every image that carries alpha information
(directly or via a palette transparency table) it returns the smallest
half-open rectangle enclosing all pixels with alpha > 0, and `none` when no
such pixel exists; for every image without an alpha channel it returns the
full-extent box `(0, 0, width, height)`. -/
theorem get_alpha_bbox_spec (image : Img) :
    (alphaCond image.mode = true →
      (get_alpha_bbox image = none ↔
        ∀ x < image.width, ∀ y < image.height, (image.pix x y).a = 0) ∧
      (∀ l t r b, get_alpha_bbox image = some (l, t, r, b) →
        (∀ x < image.width, ∀ y < image.height, 0 < (image.pix x y).a →
          (l ≤ x ∧ x < r) ∧ (t ≤ y ∧ y < b)) ∧
        (∀ l2 t2 r2 b2,
          (∀ x < image.width, ∀ y < image.height, 0 < (image.pix x y).a →
            (l2 ≤ x ∧ x < r2) ∧ (t2 ≤ y ∧ y < b2)) →
          l2 ≤ l ∧ t2 ≤ t ∧ r ≤ r2 ∧ b ≤ b2)) ) ∧
    (alphaCond image.mode = false →
      get_alpha_bbox image = some (0, 0, image.width, image.height)) := by
  constructor
  · intro hA
    have hbbox : get_alpha_bbox image = getbbox image.convertRGBA := by
      simp [get_alpha_bbox, hA]
    have hpix := convertRGBA_pix_of_alphaCond image hA
    constructor
    · rw [hbbox]
      have := getbbox_none_iff image.convertRGBA
      rw [convertRGBA_width, convertRGBA_height, hpix] at this
      exact this
    · intro l t r b hsome
      rw [hbbox] at hsome
      have hspec := getbbox_some_spec image.convertRGBA l t r b hsome
      rw [convertRGBA_width, convertRGBA_height, hpix] at hspec
      constructor
      · intro x hx y hy ha
        have := hspec.1 x y hx hy ha
        exact ⟨⟨this.1, this.2.1⟩, this.2.2⟩
      · intro l2 t2 r2 b2 hcover
        exact hspec.2 l2 t2 r2 b2 fun x y hx hy ha =>
          ⟨(hcover x hx y hy ha).1.1, (hcover x hx y hy ha).1.2,
            (hcover x hx y hy ha).2.1, (hcover x hx y hy ha).2.2⟩
  · intro hA
    simp [get_alpha_bbox, hA]

theorem get_alpha_bbox_spec_witness :
    ((1 ≤ 1 ∧ 1 < 2) ∧ (1 ≤ 1 ∧ 1 < 2)) ∧
      get_alpha_bbox rgbImg = some (0, 0, 3, 2) :=
  ⟨(((get_alpha_bbox_spec paletteImg).1 rfl).2 1 1 2 2 (by decide)).1
      1 (by decide) 1 (by decide) (by decide),
    (get_alpha_bbox_spec rgbImg).2 rfl⟩

/-- **C1 (counterexample).** With tolerance 0 the keying step still runs: for
the 1×1 opaque white input, the image handed to the trimming step differs from
the decoded (RGBA-normalized) image — its pixel has been keyed to alpha 0. -/
theorem keying_at_zero_tolerance_counterexample :
    ¬ Img.eqv (keyedStage whiteImg 0) (decodeNormalize whiteImg) := by
  decide

/-- **C1 (amended).** The Background Color Keyer runs for every file
regardless of tolerance: when the decoded image's pixel (0,0) is already
fully transparent the image handed to the trimming step equals the decoded
image pixel for pixel, and otherwise every pixel within `t * 3` RGB distance
of the reference — including exact matches at tolerance 0 — has its alpha
set to 0. -/
theorem keyedStage_spec (img : Img) (t : Int) :
    (alphaCond (decodeNormalize img).mode = true →
      ((decodeNormalize img).pix 0 0).a = 0 →
      Img.eqv (keyedStage img t) (decodeNormalize img)) ∧
    ((decodeNormalize img).mode = Mode.RGBA →
      ((decodeNormalize img).pix 0 0).a ≠ 0 →
      ∀ x y, colorDiff ((decodeNormalize img).pix x y) ((decodeNormalize img).pix 0 0) ≤ t * 3 →
        ((keyedStage img t).pix x y).a = 0) := by
  constructor
  · intro hA h0
    obtain ⟨hw, hh, hpix⟩ := mbt_corner_noop (decodeNormalize img) t hA h0
    exact ⟨hw, hh, fun x hx y hy => hpix x y⟩
  · intro hm h0 x y hd
    rw [keyedStage, mbt_pix_of_opaque_corner (decodeNormalize img) t hm h0 x y, if_pos hd]

theorem keyedStage_spec_witness :
    (keyedStage cornerClearImg 3).pix 1 0 = cornerClearImg.pix 1 0 :=
  ((keyedStage_spec cornerClearImg 3).1 rfl rfl).2.2 1 (by decide) 0 (by decide)

/-- **C4 (counterexample).** The pipeline is not idempotent: for the 2×1
red/blue input at size 1 and tolerance 0 the first run yields an opaque blue
1×1 image, while re-running the transform on that output keys the blue pixel
out and yields a fully transparent image.  Both runs stay at the equal-size
resize fast path, so the abstract resampler is never consulted. -/
theorem pipeline_not_idempotent_counterexample :
    ¬ Img.eqv (process_image holdResample (process_image holdResample redBlueImg 1 0) 1 0)
        (process_image holdResample redBlueImg 1 0) := by
  decide

theorem process_image_blank_core (resample : Img → Nat → Img) (s : Nat) (t : Int) (img : Img)
    (hm : img.mode = Mode.RGBA) (hw : img.width = s) (hh : img.height = s)
    (hp : ∀ x y, img.pix x y = ⟨0, 0, 0, 0⟩) :
    (process_image resample img s t).mode = Mode.RGBA ∧
    (process_image resample img s t).width = s ∧
    (process_image resample img s t).height = s ∧
    ∀ x y, (process_image resample img s t).pix x y = ⟨0, 0, 0, 0⟩ := by
  have hA : alphaCond img.mode = true := by rw [hm]; rfl
  have hd : decodeNormalize img = img := by simp [decodeNormalize, hm]
  have h0 : (img.pix 0 0).a = 0 := by rw [hp 0 0]
  have hmbt : make_background_transparent img t = img := by
    simp [make_background_transparent, toRGBA_eq_self img hm, h0]
  have hnone : get_alpha_bbox img = none := by
    simp only [get_alpha_bbox, hA, if_true]
    rw [getbbox_none_iff]
    intro x hx y hy
    rw [convertRGBA_pix_of_alphaCond img hA, hp x y]
  have htrim : trim_image img = img := by simp [trim_image, hnone]
  have hkey : keyedStage img t = img := by rw [keyedStage, hd, hmbt]
  have hpadw : (pad_to_square img).width = s := by
    show max img.width img.height = s
    rw [hw, hh, Nat.max_self]
  have hpadh : (pad_to_square img).height = s := by
    show max img.width img.height = s
    rw [hw, hh, Nat.max_self]
  have hpadpix : ∀ x y, (pad_to_square img).pix x y = ⟨0, 0, 0, 0⟩ := by
    intro x y
    rw [pad_pix]
    split
    · rw [toRGBA_eq_self img hm, hp]
      exact blendPix_transparent_source _ _ rfl rfl
    · rfl
  have hproc : process_image resample img s t = pad_to_square img := by
    unfold process_image
    rw [hkey, htrim]
    unfold pilResize
    rw [if_pos ⟨hpadw, hpadh⟩]
  rw [hproc]
  exact ⟨rfl, hpadw, hpadh, hpadpix⟩

/-- **C4 (amended).** The pipeline is idempotent only on its fixed points:
for an image that is already fully transparent black at the target size the
transform reproduces the image, and hence running it twice equals running it
once; for other inputs a second run can change the pixels, as the
counterexample shows. -/
theorem process_image_idempotent_on_blank (resample : Img → Nat → Img) (s : Nat) (t : Int)
    (img : Img) (hm : img.mode = Mode.RGBA) (hw : img.width = s) (hh : img.height = s)
    (hp : ∀ x y, img.pix x y = ⟨0, 0, 0, 0⟩) :
    Img.eqv (process_image resample (process_image resample img s t) s t)
      (process_image resample img s t) ∧
    Img.eqv (process_image resample img s t) img := by
  obtain ⟨hm1, hw1, hh1, hp1⟩ := process_image_blank_core resample s t img hm hw hh hp
  obtain ⟨hm2, hw2, hh2, hp2⟩ :=
    process_image_blank_core resample s t _ hm1 hw1 hh1 hp1
  constructor
  · exact ⟨by rw [hw2, hw1], by rw [hh2, hh1], fun x hx y hy => by rw [hp2 x y, hp1 x y]⟩
  · exact ⟨by rw [hw1, hw], by rw [hh1, hh], fun x hx y hy => by rw [hp1 x y, hp x y]⟩

theorem process_image_idempotent_on_blank_witness :
    Img.eqv (process_image holdResample (process_image holdResample blankImg 1 5) 1 5)
      (process_image holdResample blankImg 1 5) :=
  (process_image_idempotent_on_blank holdResample 1 5 blankImg rfl rfl rfl
    (fun _ _ => rfl)).1

/-- **C6 (counterexample).** After the padding step of the pipeline the side
of the square is not `max(original width, original height)`: the 2×1 input
with a transparent left margin is trimmed to 1×1 first, so the padded square
has side 1, not 2. -/
theorem padded_side_counterexample :
    (pad_to_square (trim_image (keyedStage marginImg 0))).width ≠
      max marginImg.width marginImg.height := by
  decide

/-- **C6 (amended).** After the padding step the image is square with side
`max` of the *trimmed* image's width and height (the padder's input), and —
for any resampler honouring the Lanczos size contract — after the resizing
step both dimensions equal the configured output size. -/
theorem pipeline_dims_spec (resample : Img → Nat → Img)
    (hres : ∀ i n, (resample i n).width = n ∧ (resample i n).height = n)
    (s : Nat) (t : Int) (img : Img) :
    (pad_to_square (trim_image (keyedStage img t))).width =
      max (trim_image (keyedStage img t)).width (trim_image (keyedStage img t)).height ∧
    (pad_to_square (trim_image (keyedStage img t))).height =
      max (trim_image (keyedStage img t)).width (trim_image (keyedStage img t)).height ∧
    (process_image resample img s t).width = s ∧
    (process_image resample img s t).height = s := by
  refine ⟨rfl, rfl, ?_, ?_⟩
  · unfold process_image pilResize
    split
    · rename_i h
      exact h.1
    · exact (hres _ s).1
  · unfold process_image pilResize
    split
    · rename_i h
      exact h.2
    · exact (hres _ s).2

theorem pipeline_dims_spec_witness :
    (process_image squareResample marginImg 7 0).width = 7 ∧
    (process_image squareResample marginImg 7 0).height = 7 :=
  ⟨(pipeline_dims_spec squareResample (fun _ _ => ⟨rfl, rfl⟩) 7 0 marginImg).2.2.1,
    (pipeline_dims_spec squareResample (fun _ _ => ⟨rfl, rfl⟩) 7 0 marginImg).2.2.2⟩

theorem stepFile_failures (resample : Img → Nat → Img) (size : Nat) (tolerance : Int)
    (existing : List String) (overwrite : Bool) (acc : BatchResult) (p : FileEntry) :
    (stepFile resample size tolerance existing overwrite acc p).failures =
      acc.failures ++ (failSel existing overwrite p).toList := by
  by_cases hskip : p.name ∈ existing ∧ overwrite = false
  · simp [stepFile, failSel, hskip]
  · cases hc : p.content with
    | error e => simp [stepFile, failSel, hskip, hc]
    | ok img => simp [stepFile, failSel, hskip, hc]

theorem stepFile_outputs (resample : Img → Nat → Img) (size : Nat) (tolerance : Int)
    (existing : List String) (overwrite : Bool) (acc : BatchResult) (p : FileEntry) :
    (stepFile resample size tolerance existing overwrite acc p).outputs =
      acc.outputs ++ (outSel resample size tolerance existing overwrite p).toList := by
  by_cases hskip : p.name ∈ existing ∧ overwrite = false
  · simp [stepFile, outSel, hskip]
  · cases hc : p.content with
    | error e => simp [stepFile, outSel, hskip, hc]
    | ok img => simp [stepFile, outSel, hskip, hc]

theorem stepFile_exitCode (resample : Img → Nat → Img) (size : Nat) (tolerance : Int)
    (existing : List String) (overwrite : Bool) (acc : BatchResult) (p : FileEntry) :
    (stepFile resample size tolerance existing overwrite acc p).exitCode = acc.exitCode := by
  by_cases hskip : p.name ∈ existing ∧ overwrite = false
  · simp [stepFile, hskip]
  · cases hc : p.content with
    | error e => simp [stepFile, hskip, hc]
    | ok img => simp [stepFile, hskip, hc]

theorem foldl_stepFile_failures (resample : Img → Nat → Img) (size : Nat) (tolerance : Int)
    (existing : List String) (overwrite : Bool) (l : List FileEntry) (acc : BatchResult) :
    (l.foldl (stepFile resample size tolerance existing overwrite) acc).failures =
      acc.failures ++ l.filterMap (failSel existing overwrite) := by
  induction l generalizing acc with
  | nil => simp
  | cons p l ih =>
    rw [List.foldl_cons, ih, stepFile_failures, List.filterMap_cons]
    cases failSel existing overwrite p <;> simp

theorem foldl_stepFile_outputs (resample : Img → Nat → Img) (size : Nat) (tolerance : Int)
    (existing : List String) (overwrite : Bool) (l : List FileEntry) (acc : BatchResult) :
    (l.foldl (stepFile resample size tolerance existing overwrite) acc).outputs =
      acc.outputs ++ l.filterMap (outSel resample size tolerance existing overwrite) := by
  induction l generalizing acc with
  | nil => simp
  | cons p l ih =>
    rw [List.foldl_cons, ih, stepFile_outputs, List.filterMap_cons]
    cases outSel resample size tolerance existing overwrite p <;> simp

theorem foldl_stepFile_exitCode (resample : Img → Nat → Img) (size : Nat) (tolerance : Int)
    (existing : List String) (overwrite : Bool) (l : List FileEntry) (acc : BatchResult) :
    (l.foldl (stepFile resample size tolerance existing overwrite) acc).exitCode =
      acc.exitCode := by
  induction l generalizing acc with
  | nil => rfl
  | cons p l ih => rw [List.foldl_cons, ih, stepFile_exitCode]

/-- **C9.** The batch driver: a missing source directory yields zero files and
the empty outcome; the exit code is 0 in every case; and for every discovered,
non-skipped file, a processing failure is reported as the failing path paired
with the error while every successfully processed file still lands in the
outputs — failures of other files never abort the batch. -/
theorem main_batch_spec (resample : Img → Nat → Img) (d : SrcDir) (existing : List String)
    (overwrite : Bool) (size : Nat) (tolerance : Int) :
    (runMain resample d existing overwrite size tolerance).exitCode = 0 ∧
    (d.present = false →
      find_pngs d = [] ∧ runMain resample d existing overwrite size tolerance = initResult) ∧
    (∀ p ∈ find_pngs d, ¬(p.name ∈ existing ∧ overwrite = false) →
      (∀ e, p.content = Except.error e →
        (p.name, e) ∈ (runMain resample d existing overwrite size tolerance).failures) ∧
      (∀ img, p.content = Except.ok img →
        (p.name, process_image resample img size tolerance) ∈
          (runMain resample d existing overwrite size tolerance).outputs)) := by
  have hrw : runMain resample d existing overwrite size tolerance =
      if (find_pngs d).isEmpty then initResult
      else (find_pngs d).foldl (stepFile resample size tolerance existing overwrite)
        initResult := rfl
  refine ⟨?_, ?_, ?_⟩
  · rw [hrw]
    split
    · rfl
    · rw [foldl_stepFile_exitCode]
      rfl
  · intro hmiss
    have hfp : find_pngs d = [] := by simp [find_pngs, hmiss]
    exact ⟨hfp, by rw [hrw, hfp]; rfl⟩
  · intro p hp hskip
    have hne : (find_pngs d).isEmpty = false := by
      cases hfp : find_pngs d
      · rw [hfp] at hp
        cases hp
      · rfl
    constructor
    · intro e he
      rw [hrw, hne]
      show (p.name, e) ∈ (List.foldl _ initResult _).failures
      rw [foldl_stepFile_failures]
      refine List.mem_append_right _ (List.mem_filterMap.2 ⟨p, hp, ?_⟩)
      simp [failSel, hskip, he]
    · intro img him
      rw [hrw, hne]
      show (p.name, process_image resample img size tolerance) ∈
        (List.foldl _ initResult _).outputs
      rw [foldl_stepFile_outputs]
      refine List.mem_append_right _ (List.mem_filterMap.2 ⟨p, hp, ?_⟩)
      simp [outSel, hskip, him]

theorem main_batch_spec_witness :
    ("b.png", "cannot identify image file") ∈
      (runMain batchResample srcDir3 [] false 16 0).failures ∧
    ("c.png", process_image batchResample goodImgC 16 0) ∈
      (runMain batchResample srcDir3 [] false 16 0).outputs ∧
    (runMain batchResample srcDir3 [] false 16 0).exitCode = 0 := by
  have hspec := main_batch_spec batchResample srcDir3 [] false 16 0
  have hfind : find_pngs srcDir3 = [fileA, fileB, fileC] := rfl
  have hB : fileB ∈ find_pngs srcDir3 := by
    rw [hfind]
    exact List.mem_cons_of_mem _ (List.mem_cons_self _ _)
  have hC : fileC ∈ find_pngs srcDir3 := by
    rw [hfind]
    exact List.mem_cons_of_mem _ (List.mem_cons_of_mem _ (List.mem_cons_self _ _))
  exact ⟨(hspec.2.2 fileB hB (by simp)).1 "cannot identify image file" rfl,
    (hspec.2.2 fileC hC (by simp)).2 goodImgC rfl, hspec.1⟩
